import Mathlib

/-
Verification of the gpstime repository (PointOneNav/gpstime): shallow
embedding of the leap-second table management and UNIX/GPS conversion
code, and theorems about the properties stated in its specification.

Timestamps are modelled as `Int` (the Python code casts through `float`,
which is exact on the integer second counts involved, all well below
2^53).
-/

namespace Gpstime

/-- UNIX time for GPS 0 (1980-01-06T00:00:00Z); constant `GPS0` from
src/gpstime/__init__.py. -/
def GPS0 : Int := 315964800

/-- One entry of the parsed leap table `LEAPDATA`: a pair
`(leap, offset)` of the UNIX instant at which the new offset takes
effect and the cumulative TAI-UTC offset, as produced by
`__ietf_parse_leapfile` in src/gpstime/__init__.py. -/
abbrev LeapEntry := Int × Int

/-- The `for leap, offset in LEAPDATA` loop of `unix2gps`
(src/gpstime/__init__.py lines 177-180): starting from the accumulator
`gps`, add 1 per entry until the first entry with `unix < leap`. -/
def u2gLoop (unix : Int) : List LeapEntry → Int → Int
  | [], gps => gps
  | (leap, _) :: rest, gps =>
    if unix < leap then gps else u2gLoop unix rest (gps + 1)

/-- `unix2gps` from src/gpstime/__init__.py lines 171-181, with the leap
table passed explicitly in place of the module global `LEAPDATA`. -/
def unix2gps (unix : Int) (leapdata : List LeapEntry) : Int :=
  u2gLoop unix leapdata (unix - GPS0)

/-- The `for leap, offset in LEAPDATA` loop of `gps2unix`
(src/gpstime/__init__.py lines 189-192): starting from the accumulator
`unix`, subtract 1 per entry until the first entry with `unix < leap`;
the accumulator itself is compared, so each subtraction changes which
later entries qualify. -/
def g2uLoop : List LeapEntry → Int → Int
  | [], unix => unix
  | (leap, _) :: rest, unix =>
    if unix < leap then unix else g2uLoop rest (unix - 1)

/-- `gps2unix` from src/gpstime/__init__.py lines 183-193, with the leap
table passed explicitly in place of the module global `LEAPDATA`. -/
def gps2unix (gps : Int) (leapdata : List LeapEntry) : Int :=
  g2uLoop leapdata (gps + GPS0)

/-- Modelled from the spec: the historical IETF leap-second bulletin
(leap-seconds.list) is runtime data, not a file under src/.  This is
the table `__ietf_parse_leapfile` produces from the historical bulletin:
the 18 leap events after the GPS epoch (the parser drops events with
instant <= GPS0), each as (UNIX instant of 00:00:00 UTC on the day the
new offset takes effect, cumulative TAI-UTC offset), consistent with the
regression vectors of spec section 8. -/
def LEAPDATA_hist : List LeapEntry :=
  [(362793600, 20),   -- 1981-07-01
   (394329600, 21),   -- 1982-07-01
   (425865600, 22),   -- 1983-07-01
   (489024000, 23),   -- 1985-07-01
   (567993600, 24),   -- 1988-01-01
   (631152000, 25),   -- 1990-01-01
   (662688000, 26),   -- 1991-01-01
   (709948800, 27),   -- 1992-07-01
   (741484800, 28),   -- 1993-07-01
   (773020800, 29),   -- 1994-07-01
   (820454400, 30),   -- 1996-01-01
   (867715200, 31),   -- 1997-07-01
   (915148800, 32),   -- 1999-01-01
   (1136073600, 33),  -- 2006-01-01
   (1230768000, 34),  -- 2009-01-01
   (1341100800, 35),  -- 2012-07-01
   (1435708800, 36),  -- 2015-07-01
   (1483228800, 37)]  -- 2017-01-01

/-- C2: with the historical leap table loaded, the converters satisfy
the literal regression vectors of spec section 8 (and test.py):
gps2unix(1133585676) = 1449550459, unix2gps(1449550459) = 1133585676,
gps2unix(123456789) = 439421586, and at the 1993-06-30 leap boundary
gps2unix maps 425520006,425520007,425520008,425520009 to
741484798,741484799,741484799,741484800 while unix2gps maps
741484798,741484799,741484800 to 425520006,425520007,425520009. -/
theorem conversion_regression_vectors :
    gps2unix 1133585676 LEAPDATA_hist = 1449550459
    ∧ unix2gps 1449550459 LEAPDATA_hist = 1133585676
    ∧ gps2unix 123456789 LEAPDATA_hist = 439421586
    ∧ gps2unix 425520006 LEAPDATA_hist = 741484798
    ∧ gps2unix 425520007 LEAPDATA_hist = 741484799
    ∧ gps2unix 425520008 LEAPDATA_hist = 741484799
    ∧ gps2unix 425520009 LEAPDATA_hist = 741484800
    ∧ unix2gps 741484798 LEAPDATA_hist = 425520006
    ∧ unix2gps 741484799 LEAPDATA_hist = 425520007
    ∧ unix2gps 741484800 LEAPDATA_hist = 425520009 := by
  decide

/-- The number of entries the `unix2gps` loop consumes before its break:
one per entry until the first with `unix < leap`. -/
def countLeq (u : Int) : List LeapEntry → Int
  | [] => 0
  | (leap, _) :: rest => if u < leap then 0 else countLeq u rest + 1

theorem countLeq_nonneg (u : Int) : ∀ t : List LeapEntry, 0 ≤ countLeq u t := by
  intro t
  induction t with
  | nil => simp [countLeq]
  | cons p rest ih =>
    obtain ⟨leap, o⟩ := p
    by_cases h : u < leap
    · simp [countLeq, h]
    · simp only [countLeq, if_neg h]
      omega

theorem u2gLoop_eq (u : Int) : ∀ (t : List LeapEntry) (g : Int),
    u2gLoop u t g = g + countLeq u t := by
  intro t
  induction t with
  | nil => intro g; simp [u2gLoop, countLeq]
  | cons p rest ih =>
    intro g
    obtain ⟨leap, o⟩ := p
    by_cases h : u < leap
    · simp [u2gLoop, countLeq, h]
    · simp only [u2gLoop, countLeq, if_neg h, ih]
      ring

theorem countLeq_mono (u₁ u₂ : Int) (h : u₁ ≤ u₂) :
    ∀ t : List LeapEntry, countLeq u₁ t ≤ countLeq u₂ t := by
  intro t
  induction t with
  | nil => simp [countLeq]
  | cons p rest ih =>
    obtain ⟨leap, o⟩ := p
    by_cases h1 : u₁ < leap
    · have h0 := countLeq_nonneg u₂ rest
      by_cases h2 : u₂ < leap
      · simp only [countLeq, if_pos h1, if_pos h2]
        omega
      · simp only [countLeq, if_pos h1, if_neg h2]
        omega
    · have h2 : ¬ u₂ < leap := by omega
      simp only [countLeq, if_neg h1, if_neg h2]
      omega

theorem countLeq_filter (u : Int) :
    ∀ t : List LeapEntry, List.Pairwise (fun p q : LeapEntry => p.1 < q.1) t →
      countLeq u t = ((t.filter fun p => decide (p.1 ≤ u)).length : Int) := by
  intro t
  induction t with
  | nil => intro _; simp [countLeq]
  | cons p rest ih =>
    intro hp
    simp only [List.pairwise_cons] at hp
    obtain ⟨leap, o⟩ := p
    by_cases h : u < leap
    · have hrest : (rest.filter fun p => decide (p.1 ≤ u)) = [] := by
        rw [List.filter_eq_nil_iff]
        intro a ha
        have := hp.1 a ha
        simp only [decide_eq_true_eq]
        omega
      simp only [countLeq, if_pos h, List.filter_cons, hrest]
      have : ¬ (leap ≤ u) := by omega
      simp [this]
    · have hle : leap ≤ u := by omega
      have hih := ih hp.2
      simp only [countLeq, if_neg h, List.filter_cons]
      simp [hle]
      omega

/-- C3: for every strictly increasing table, `unix2gps u t` equals
`u - 315964800` plus the number of table events whose effective instant
is `<= u`; an event whose instant equals `u` exactly counts (the filter
condition is `<=`), and the loop stops at the first instant above `u`. -/
theorem unix2gps_count_char (t : List LeapEntry)
    (hs : List.Pairwise (fun p q : LeapEntry => p.1 < q.1) t) (u : Int) :
    unix2gps u t = u - GPS0 + ((t.filter fun p => decide (p.1 ≤ u)).length : Int) := by
  rw [unix2gps, u2gLoop_eq, countLeq_filter u t hs]

/-- Witness for C3, at the historical table and the 1993-07-01 leap
boundary instant itself (which counts, per the tie-break rule). -/
theorem unix2gps_count_char_inst :
    unix2gps 741484800 LEAPDATA_hist
      = 741484800 - GPS0
        + ((LEAPDATA_hist.filter fun p => decide (p.1 ≤ 741484800)).length : Int) :=
  unix2gps_count_char LEAPDATA_hist (by decide) 741484800

/-- C8: `unix2gps` is monotone non-decreasing over a fixed table with
strictly increasing instants: `t₁ < t₂` implies
`unix2gps t₁ ≤ unix2gps t₂`. -/
theorem unix2gps_monotone (t : List LeapEntry)
    (_hs : List.Pairwise (fun p q : LeapEntry => p.1 < q.1) t)
    (t₁ t₂ : Int) (h : t₁ < t₂) : unix2gps t₁ t ≤ unix2gps t₂ t := by
  have hc := countLeq_mono t₁ t₂ (le_of_lt h) t
  rw [unix2gps, unix2gps, u2gLoop_eq, u2gLoop_eq]
  omega

/-- Witness for C8, at the historical table across the 1993 boundary. -/
theorem unix2gps_monotone_inst :
    unix2gps 741484799 LEAPDATA_hist ≤ unix2gps 741484800 LEAPDATA_hist :=
  unix2gps_monotone LEAPDATA_hist (by decide) 741484799 741484800 (by decide)

theorem g2u_u2g_loop : ∀ (t : List LeapEntry) (u : Int),
    g2uLoop t (u + countLeq u t) = u := by
  intro t
  induction t with
  | nil => intro u; simp [g2uLoop, countLeq]
  | cons p rest ih =>
    intro u
    obtain ⟨leap, o⟩ := p
    by_cases h : u < leap
    · simp [countLeq, h, g2uLoop]
    · have hnn := countLeq_nonneg u rest
      have hcond : ¬ (u + (countLeq u rest + 1) < leap) := by omega
      simp only [countLeq, if_neg h, g2uLoop, if_neg hcond]
      have harg : u + (countLeq u rest + 1) - 1 = u + countLeq u rest := by ring
      rw [harg, ih]

/-- UNIX-direction round trip, for any table at all: the subtractions in
the `gps2unix` loop retrace exactly the additions the `unix2gps` loop
made. -/
theorem roundtrip_u (t : List LeapEntry) (u : Int) :
    gps2unix (unix2gps u t) t = u := by
  rw [unix2gps, u2gLoop_eq, gps2unix]
  have harg : u - GPS0 + countLeq u t + GPS0 = u + countLeq u t := by ring
  rw [harg, g2u_u2g_loop]

/-- `true` unless `g` names an inserted leap second of the table, i.e.
unless the `gps2unix` loop run on `g` reaches some entry with its
accumulator exactly equal to that entry's instant. -/
def goodGPS (g : Int) : List LeapEntry → Bool
  | [] => true
  | (leap, _) :: rest =>
    if g + GPS0 < leap then true
    else if g + GPS0 = leap then false
    else goodGPS (g - 1) rest

/-- Lower bound on the `gps2unix` loop accumulator: if every remaining
instant is at least `m` and the accumulator is at least `m - 1`, it
stays at least `m - 1`. -/
theorem g2uLoop_ge : ∀ (t : List LeapEntry) (v m : Int),
    (∀ p ∈ t, m ≤ p.1) → m - 1 ≤ v → m - 1 ≤ g2uLoop t v := by
  intro t
  induction t with
  | nil => intro v m _ hv; simpa [g2uLoop] using hv
  | cons p rest ih =>
    intro v m hall hv
    obtain ⟨leap, o⟩ := p
    by_cases h : v < leap
    · simpa [g2uLoop, h] using hv
    · have hm : m ≤ leap := hall (leap, o) (List.mem_cons_self _ _)
      simp only [g2uLoop, if_neg h]
      refine ih (v - 1) m ?_ ?_
      · intro q hq; exact hall q (List.mem_cons_of_mem _ hq)
      · omega

theorem roundtrip_step (g leap o : Int) (rest : List LeapEntry)
    (hs1 : ∀ q ∈ rest, leap < q.1) (hlt : leap < g + GPS0) :
    unix2gps (gps2unix g ((leap, o) :: rest)) ((leap, o) :: rest)
      = unix2gps (gps2unix (g - 1) rest) rest + 1 := by
  have hstep : gps2unix g ((leap, o) :: rest) = gps2unix (g - 1) rest := by
    simp only [gps2unix, g2uLoop]
    rw [if_neg (by omega)]
    congr 1
    ring
  have hge : leap ≤ gps2unix (g - 1) rest := by
    have hall : ∀ p ∈ rest, leap + 1 ≤ p.1 := fun p hp => by
      have := hs1 p hp; omega
    have h2 := g2uLoop_ge rest (g - 1 + GPS0) (leap + 1) hall (by omega)
    have hdef : gps2unix (g - 1) rest = g2uLoop rest (g - 1 + GPS0) := rfl
    omega
  rw [hstep, unix2gps, unix2gps, u2gLoop_eq, u2gLoop_eq]
  have hcnt : countLeq (gps2unix (g - 1) rest) ((leap, o) :: rest)
      = countLeq (gps2unix (g - 1) rest) rest + 1 := by
    simp [countLeq, not_lt.mpr hge]
  rw [hcnt]
  ring

/-- GPS-direction round trip dichotomy over a strictly increasing table:
away from inserted leap seconds it is the identity, at an inserted leap
second it lands one below. -/
theorem roundtrip_g_aux :
    ∀ t : List LeapEntry, List.Pairwise (fun p q : LeapEntry => p.1 < q.1) t →
      ∀ g : Int,
        (goodGPS g t = true → unix2gps (gps2unix g t) t = g)
        ∧ (goodGPS g t = false → unix2gps (gps2unix g t) t = g - 1) := by
  intro t
  induction t with
  | nil =>
    intro _ g
    refine ⟨fun _ => ?_, fun hf => ?_⟩
    · simp only [gps2unix, g2uLoop, unix2gps, u2gLoop]
      omega
    · simp [goodGPS] at hf
  | cons p rest ih =>
    intro hs g
    obtain ⟨leap, o⟩ := p
    simp only [List.pairwise_cons] at hs
    have ihr := ih hs.2
    by_cases h1 : g + GPS0 < leap
    · have hval : gps2unix g ((leap, o) :: rest) = g + GPS0 := by
        simp [gps2unix, g2uLoop, h1]
      have hgood : goodGPS g ((leap, o) :: rest) = true := by
        simp [goodGPS, h1]
      refine ⟨fun _ => ?_, fun hf => ?_⟩
      · rw [hval, unix2gps, u2gLoop_eq]
        have hc : countLeq (g + GPS0) ((leap, o) :: rest) = 0 := by
          simp [countLeq, h1]
        rw [hc]
        ring
      · rw [hgood] at hf
        simp at hf
    · by_cases h2 : g + GPS0 = leap
      · have hbad : goodGPS g ((leap, o) :: rest) = false := by
          simp [goodGPS, h1, h2]
        have hrest : g2uLoop rest (leap - 1) = leap - 1 := by
          cases rest with
          | nil => simp [g2uLoop]
          | cons q rs =>
            have hq := hs.1 q (List.mem_cons_self _ _)
            simp [g2uLoop, show leap - 1 < q.1 from by omega]
        have hval : gps2unix g ((leap, o) :: rest) = leap - 1 := by
          simp only [gps2unix, g2uLoop]
          rw [if_neg h1, show g + GPS0 - 1 = leap - 1 from by omega]
          exact hrest
        refine ⟨fun ht => ?_, fun _ => ?_⟩
        · rw [hbad] at ht
          simp at ht
        · rw [hval, unix2gps, u2gLoop_eq]
          have hc : countLeq (leap - 1) ((leap, o) :: rest) = 0 := by
            simp [countLeq, show leap - 1 < leap from by omega]
          rw [hc]
          omega
      · have hlt : leap < g + GPS0 := by omega
        have hstep := roundtrip_step g leap o rest (fun q hq => hs.1 q hq) hlt
        have hgood : goodGPS g ((leap, o) :: rest) = goodGPS (g - 1) rest := by
          simp [goodGPS, h1, h2]
        refine ⟨fun ht => ?_, fun hf => ?_⟩
        · rw [hgood] at ht
          rw [hstep, (ihr (g - 1)).1 ht]
          ring
        · rw [hgood] at hf
          rw [hstep, (ihr (g - 1)).2 hf]
          ring

/-- C1 (amended): over any table with strictly increasing instants (in
particular the historical table), the UNIX-direction round trip
`gps2unix (unix2gps u) = u` holds for every integer `u`; the
GPS-direction round trip `unix2gps (gps2unix g) = g` holds for every
integer `g` except those naming an inserted leap second
(`goodGPS g = false`), where the result is `g - 1` instead. -/
theorem roundtrip_char (t : List LeapEntry)
    (hs : List.Pairwise (fun p q : LeapEntry => p.1 < q.1) t) :
    (∀ u : Int, gps2unix (unix2gps u t) t = u)
    ∧ (∀ g : Int, goodGPS g t = true → unix2gps (gps2unix g t) t = g)
    ∧ (∀ g : Int, goodGPS g t = false → unix2gps (gps2unix g t) t = g - 1) :=
  ⟨fun u => roundtrip_u t u,
   fun g => (roundtrip_g_aux t hs g).1,
   fun g => (roundtrip_g_aux t hs g).2⟩

/-- Counterexample to C1 as stated: on the historical table, the GPS
value 425520008 (the inserted leap second of 1993-06-30) does not
survive the round trip: unix2gps(gps2unix(425520008)) = 425520007. -/
theorem roundtrip_fails_at_leap_second :
    ¬ unix2gps (gps2unix 425520008 LEAPDATA_hist) LEAPDATA_hist = 425520008 := by
  decide

/-- Witness for C1 (amended), on the historical table: a UNIX instant, a
non-leap GPS value, and the 1993 leap-second GPS value. -/
theorem roundtrip_char_inst :
    gps2unix (unix2gps 1449550459 LEAPDATA_hist) LEAPDATA_hist = 1449550459
    ∧ unix2gps (gps2unix 1133585676 LEAPDATA_hist) LEAPDATA_hist = 1133585676
    ∧ unix2gps (gps2unix 425520008 LEAPDATA_hist) LEAPDATA_hist = 425520008 - 1 :=
  ⟨(roundtrip_char LEAPDATA_hist (by decide)).1 1449550459,
   (roundtrip_char LEAPDATA_hist (by decide)).2.1 1133585676 (by decide),
   (roundtrip_char LEAPDATA_hist (by decide)).2.2 425520008 (by decide)⟩

theorem u2gLoop_congr (u : Int) :
    ∀ t₁ t₂ : List LeapEntry, t₁.map Prod.fst = t₂.map Prod.fst →
      ∀ a : Int, u2gLoop u t₁ a = u2gLoop u t₂ a := by
  intro t₁
  induction t₁ with
  | nil =>
    intro t₂ h a
    have : t₂ = [] := by simpa using h.symm
    subst this
    rfl
  | cons p rest ih =>
    intro t₂ h a
    cases t₂ with
    | nil => simp at h
    | cons q rest₂ =>
      obtain ⟨l₁, o₁⟩ := p
      obtain ⟨l₂, o₂⟩ := q
      simp only [List.map_cons, List.cons.injEq] at h
      obtain ⟨hl, hrest⟩ := h
      subst hl
      by_cases hc : u < l₁
      · simp [u2gLoop, hc]
      · simp only [u2gLoop, if_neg hc]
        exact ih rest₂ hrest (a + 1)

theorem g2uLoop_congr :
    ∀ t₁ t₂ : List LeapEntry, t₁.map Prod.fst = t₂.map Prod.fst →
      ∀ a : Int, g2uLoop t₁ a = g2uLoop t₂ a := by
  intro t₁
  induction t₁ with
  | nil =>
    intro t₂ h a
    have : t₂ = [] := by simpa using h.symm
    subst this
    rfl
  | cons p rest ih =>
    intro t₂ h a
    cases t₂ with
    | nil => simp at h
    | cons q rest₂ =>
      obtain ⟨l₁, o₁⟩ := p
      obtain ⟨l₂, o₂⟩ := q
      simp only [List.map_cons, List.cons.injEq] at h
      obtain ⟨hl, hrest⟩ := h
      subst hl
      by_cases hc : a < l₁
      · simp [g2uLoop, hc]
      · simp only [g2uLoop, if_neg hc]
        exact ih rest₂ hrest (a - 1)

/-- C9: both converters depend only on the instants of the table, never
on the stored cumulative-offset column: two tables with the same
instants and arbitrary offsets convert identically (each qualifying
event contributes exactly one second). -/
theorem converters_ignore_offsets (t₁ t₂ : List LeapEntry)
    (h : t₁.map Prod.fst = t₂.map Prod.fst) (u g : Int) :
    unix2gps u t₁ = unix2gps u t₂ ∧ gps2unix g t₁ = gps2unix g t₂ := by
  constructor
  · rw [unix2gps, unix2gps]
    have hc : countLeq u t₁ = countLeq u t₂ := by
      have h1 := u2gLoop_eq u t₁ (u - GPS0)
      have h2 := u2gLoop_eq u t₂ (u - GPS0)
      have h3 := u2gLoop_congr u t₁ t₂ h (u - GPS0)
      omega
    rw [u2gLoop_eq, u2gLoop_eq, hc]
  · rw [gps2unix, gps2unix]
    exact g2uLoop_congr t₁ t₂ h (g + GPS0)

/-- Witness for C9: a table whose offset column disagrees with the
historical one (offset 99 in place of 20) converts identically. -/
theorem converters_ignore_offsets_inst :
    unix2gps 400000000 [((362793600 : Int), (20 : Int))]
        = unix2gps 400000000 [((362793600 : Int), (99 : Int))]
    ∧ gps2unix 100000000 [((362793600 : Int), (20 : Int))]
        = gps2unix 100000000 [((362793600 : Int), (99 : Int))] :=
  converters_ignore_offsets
    [((362793600 : Int), (20 : Int))] [((362793600 : Int), (99 : Int))]
    (by decide) 400000000 100000000

/-- The three ways `gpstime.parse` (src/gpstime/__init__.py lines
272-298) can build its result: via `fromgps`, via `cls.now()`, or via
the coreutils date parser `cudate`. -/
inductive ParseRoute
  | fromgps (v : Rat)
  | nowRoute
  | cudate
deriving DecidableEq

/-- Input to `gpstime.parse` after its `if not string: string = 'now'`
normalization: `asFloat` is `some v` when `float(string)` succeeds with
value `v` (so `gps` is bound to that float rather than `None`), and
`isNow` records whether the string equals the literal `'now'`.  Python
floats are modelled as `Rat`. -/
structure ParseInput where
  asFloat : Option Rat
  isNow : Bool

/-- The dispatch of `gpstime.parse`: `gps = float(string)` or `None`;
then `if gps:` (Python truthiness: `None` and `0.0` are falsy), `elif
string == 'now':`, `else:` `cudate(string)`. -/
def gpstime_parse (s : ParseInput) : ParseRoute :=
  match s.asFloat with
  | some v =>
    if v ≠ 0 then ParseRoute.fromgps v
    else if s.isNow then ParseRoute.nowRoute
    else ParseRoute.cudate
  | none =>
    if s.isNow then ParseRoute.nowRoute
    else ParseRoute.cudate

/-- C4: evaluation at the failing input.  The string "0" parses as the
float 0.0, which is falsy, so `gpstime.parse` does NOT build the result
via `fromgps`: it falls through to the calendar-string parser `cudate`,
contradicting the claim (and the method docstring) that every
float-castable string is treated as a GPS time. -/
theorem parse_zero_routes_to_cudate :
    gpstime_parse ⟨some 0, false⟩ = ParseRoute.cudate
    ∧ gpstime_parse ⟨some 0, false⟩ ≠ ParseRoute.fromgps 0 := by
  constructor
  · rfl
  · decide

/-- A resolved leap table as held by the module globals: the parsed
event list `LEAPDATA` and the expiry instant `LEAPDATA_EXPIRE`. -/
abbrev Tbl := List LeapEntry × Int

/-- The `for path in LEAPFILES` loop of `__load_leapdata`
(src/gpstime/__init__.py lines 137-140): each iteration overwrites the
globals with that candidate's parse result and returns as soon as
`LEAPDATA_EXPIRE >= time.time()`.  The result records the table the
globals hold and whether the loop returned early (`true`) or fell
through with the last candidate's parse (`false`). -/
def loadScan (now : Int) : List Tbl → Tbl → Tbl × Bool
  | [], last => (last, false)
  | t :: rest, _ => if now ≤ t.2 then (t, true) else loadScan now rest t

/-- `update_leapdata` (src/gpstime/__init__.py lines 152-167) as
reached from `__load_leapdata`: if the current globals are unexpired it
returns immediately; otherwise it downloads via `__ietf_retrieve` into
the user cache and re-parses that file.  `fetched` is `some t` when
retrieval and re-parse succeed with table `t`, and `none` when either
raises — neither `update_leapdata` nor `__load_leapdata` catches, so
the exception propagates (modelled as result `none`). -/
def update_leapdata (cur : Tbl) (now : Int) (fetched : Option Tbl) : Option Tbl :=
  if now ≤ cur.2 then some cur
  else
    match fetched with
    | some t => some t
    | none => none

/-- `__load_leapdata` (src/gpstime/__init__.py lines 120-150), with
filesystem, clock and network made explicit: `env` is the parse result
of the IETF_LEAPFILE override when that variable is set (that branch
returns it unconditionally), `files` are the parse results of the
LEAPFILES candidates in order (a missing file parses to `([], 0)`,
since `__ietf_parse_leapfile` returns empty data and expiry 0 for it),
`now` is `time.time()`, `update` the function's keyword argument, and
`fetched` the outcome of the network refresh should the update branch
(lines 142-146) reach it.  Result `some t` is the table the globals
hold on return; `none` is an uncaught exception from the refresh.
Warnings are side effects with no influence on the resulting table and
are not modelled. -/
def load_leapdata (env : Option Tbl) (files : List Tbl) (now : Int)
    (update : Bool) (fetched : Option Tbl) : Option Tbl :=
  match env with
  | some t => some t
  | none =>
    match loadScan now files ([], 0) with
    | (t, true) => some t
    | (t, false) =>
      if update then update_leapdata t now fetched
      else some t

/-- Counterexample to C5 as stated: with no override, update disabled,
a user cache that parses to a real but expired table, and missing
system/packaged files (which parse to empty tables), resolution keeps
the parse of the LAST candidate — the empty table — not the last
successfully parsed expired table; and `unix2gps` then operates on that
empty table without any failure, returning `u - GPS0`. -/
theorem load_leapdata_keeps_last_candidate :
    load_leapdata none [([((362793600 : Int), (20 : Int))], 100), ([], 0), ([], 0)]
        200 false none
        = some (([] : List LeapEntry), 0)
    ∧ (([] : List LeapEntry), (0 : Int))
        ≠ ([((362793600 : Int), (20 : Int))], (100 : Int))
    ∧ unix2gps 741484800 [] = 741484800 - GPS0 := by
  refine ⟨rfl, by decide, rfl⟩

theorem loadScan_first_unexpired (now : Int) :
    ∀ (pre : List Tbl) (t : Tbl) (rest : List Tbl) (init : Tbl),
      (∀ x ∈ pre, x.2 < now) → now ≤ t.2 →
      loadScan now (pre ++ t :: rest) init = (t, true) := by
  intro pre
  induction pre with
  | nil => intro t rest init _ ht; simp [loadScan, ht]
  | cons p pre' ih =>
    intro t rest init hall ht
    have hp : ¬ now ≤ p.2 := by
      have := hall p (List.mem_cons_self _ _)
      omega
    have hall' : ∀ x ∈ pre', x.2 < now := fun x hx =>
      hall x (List.mem_cons_of_mem _ hx)
    simp only [List.cons_append, loadScan, if_neg hp]
    exact ih t rest p hall' ht

theorem loadScan_all_expired (now : Int) :
    ∀ (files : List Tbl) (init : Tbl) (h : files ≠ []),
      (∀ t ∈ files, t.2 < now) → loadScan now files init = (files.getLast h, false) := by
  intro files
  induction files with
  | nil => intro init h; exact absurd rfl h
  | cons t rest ih =>
    intro init h hall
    have ht : ¬ now ≤ t.2 := by
      have := hall t (List.mem_cons_self _ _)
      omega
    cases rest with
    | nil => simp [loadScan, ht]
    | cons t₂ rest₂ =>
      have hall₂ : ∀ x ∈ t₂ :: rest₂, x.2 < now := fun x hx =>
        hall x (List.mem_cons_of_mem _ hx)
      rw [List.getLast_cons (by simp)]
      simp only [loadScan, if_neg ht]
      exact ih t (by simp) hall₂

/-- C5 (amended): the override, when set, is returned unconditionally;
scanning the candidates in order, the first whose parse is unexpired
wins, whatever expired candidates precede it and whatever follows it;
when every candidate's parse is expired the globals keep the parse of
the LAST candidate path — a missing file parses to the empty table
`([], 0)`, so that can be empty — and then with `update=False` that
table is the result (only a warning is emitted) and the converters
operate on an empty table without error (`unix2gps u [] = u - GPS0`),
while with `update=True` the network refresh overwrites it with the
downloaded file's parse when retrieval succeeds, and its exception
propagates uncaught when it fails. -/
theorem load_leapdata_resolution :
    (∀ (t : Tbl) (files : List Tbl) (now : Int) (update : Bool) (fetched : Option Tbl),
        load_leapdata (some t) files now update fetched = some t)
    ∧ (∀ (pre : List Tbl) (t : Tbl) (rest : List Tbl) (now : Int)
        (update : Bool) (fetched : Option Tbl),
        (∀ x ∈ pre, x.2 < now) → now ≤ t.2 →
        load_leapdata none (pre ++ t :: rest) now update fetched = some t)
    ∧ (∀ (files : List Tbl) (now : Int) (fetched : Option Tbl) (h : files ≠ []),
        (∀ x ∈ files, x.2 < now) →
        load_leapdata none files now false fetched = some (files.getLast h))
    ∧ (∀ (files : List Tbl) (now : Int) (t₂ : Tbl) (_h : files ≠ []),
        (∀ x ∈ files, x.2 < now) →
        load_leapdata none files now true (some t₂) = some t₂)
    ∧ (∀ (files : List Tbl) (now : Int) (_h : files ≠ []),
        (∀ x ∈ files, x.2 < now) →
        load_leapdata none files now true none = none)
    ∧ (∀ u : Int, unix2gps u [] = u - GPS0) := by
  have hlast : ∀ (files : List Tbl) (now : Int) (h : files ≠ []),
      (∀ x ∈ files, x.2 < now) → ¬ now ≤ (files.getLast h).2 := by
    intro files now h hall
    have := hall (files.getLast h) (List.getLast_mem h)
    omega
  refine ⟨fun t files now update fetched => rfl,
    fun pre t rest now update fetched hall ht => ?_,
    fun files now fetched h hall => ?_,
    fun files now t₂ h hall => ?_,
    fun files now h hall => ?_,
    fun u => rfl⟩
  · simp [load_leapdata, loadScan_first_unexpired now pre t rest ([], 0) hall ht]
  · simp [load_leapdata, loadScan_all_expired now files ([], 0) h hall]
  · simp [load_leapdata, loadScan_all_expired now files ([], 0) h hall,
      update_leapdata, hlast files now h hall]
  · simp [load_leapdata, loadScan_all_expired now files ([], 0) h hall,
      update_leapdata, hlast files now h hall]

/-- Witness for C5 (amended): concrete instances of each conjunct; the
second exercises an expired candidate followed by an unexpired one. -/
theorem load_leapdata_resolution_inst :
    load_leapdata (some ([((362793600 : Int), (20 : Int))], 100)) [] 200 false none
        = some ([((362793600 : Int), (20 : Int))], 100)
    ∧ load_leapdata none
        [([], 0), ([((362793600 : Int), (20 : Int))], 300), ([], 0)] 200 false none
        = some ([((362793600 : Int), (20 : Int))], 300)
    ∧ load_leapdata none [([((362793600 : Int), (20 : Int))], 100), ([], 0)]
        200 false none
        = some (([] : List LeapEntry), 0)
    ∧ load_leapdata none [([], 0)] 200 true (some ([((362793600 : Int), (20 : Int))], 300))
        = some ([((362793600 : Int), (20 : Int))], 300)
    ∧ load_leapdata none [([], 0)] 200 true none = none
    ∧ unix2gps 741484800 [] = 741484800 - GPS0 :=
  ⟨load_leapdata_resolution.1 ([((362793600 : Int), (20 : Int))], 100) [] 200 false none,
   load_leapdata_resolution.2.1 [([], 0)] ([((362793600 : Int), (20 : Int))], 300)
     [([], 0)] 200 false none (by decide) (by decide),
   load_leapdata_resolution.2.2.1
     [([((362793600 : Int), (20 : Int))], 100), ([], 0)] 200 none (by decide) (by decide),
   load_leapdata_resolution.2.2.2.1 [([], 0)] 200
     ([((362793600 : Int), (20 : Int))], 300) (by decide) (by decide),
   load_leapdata_resolution.2.2.2.2.1 [([], 0)] 200 (by decide) (by decide),
   load_leapdata_resolution.2.2.2.2.2 741484800⟩

/-- `fetch_ietf_leapfile` from src/gpstime/leaps.py lines 77-95, as a
function of the previous destination file, the download outcome (`none`
models a network error or bad HTTP status, which raises before any file
is written) and the parser: the body is written to `path + '.tmp'`,
`load_IETF` is run on the temporary file, and only then — when the parse
did not raise — is the temporary file renamed onto the destination.
Result: (content at the destination afterwards, parse result). -/
def fetch_ietf_leapfile {α β : Type} (dest download : Option α)
    (parse : α → Option β) : Option α × Option β :=
  match download with
  | none => (dest, none)
  | some doc =>
    match parse doc with
    | some tbl => (some doc, some tbl)
    | none => (dest, none)

/-- `__ietf_retrieve` from src/gpstime/__init__.py lines 81-93: writes
the body to `path + '.tmp'` and renames it onto the destination
unconditionally — no parse happens before the rename. -/
def ietf_retrieve {α : Type} (dest download : Option α) : Option α :=
  match download with
  | none => dest
  | some doc => some doc

/-- Counterexample to C6 as stated: the remote fetch `__ietf_retrieve`
in src/gpstime/__init__.py renames the download into place without
parsing it: with a download that the parser rejects, the destination
afterwards holds exactly that unparseable document. -/
theorem ietf_retrieve_renames_unparsed :
    ietf_retrieve (some true) (some false) = some false
    ∧ (fun d : Bool => if d then some 0 else (none : Option Nat)) false = none := by
  exact ⟨rfl, rfl⟩

/-- C6 (amended): `fetch_ietf_leapfile` in src/gpstime/leaps.py parses
the temporary file and renames only on successful parse, so after it
the destination is either unchanged or holds the newly downloaded,
successfully parsed document; `__ietf_retrieve` in
src/gpstime/__init__.py instead renames every completed download into
place, parsed or not. -/
theorem fetch_rename_discipline {α β : Type} :
    (∀ (dest download : Option α) (parse : α → Option β),
      (fetch_ietf_leapfile dest download parse).1 = dest
      ∨ ∃ d, (fetch_ietf_leapfile dest download parse).1 = some d
          ∧ (parse d).isSome = true)
    ∧ (∀ (dest : Option α) (d : α), ietf_retrieve dest (some d) = some d) := by
  constructor
  · intro dest download parse
    cases download with
    | none => exact Or.inl rfl
    | some doc =>
      cases hp : parse doc with
      | none => simp [fetch_ietf_leapfile, hp]
      | some tbl =>
        right
        exact ⟨doc, by simp [fetch_ietf_leapfile, hp], by simp [hp]⟩
  · intro dest d
    rfl

/-- `ntp2unix` from src/gpstime/leaps.py (identical body to
`__ietf_c_to_unix` in src/gpstime/__init__.py): seconds since
1900-01-01 to seconds since 1970-01-01. -/
def ntp2unix (ts : Int) : Int := ts - 2208988800

/-- A line of a leap-seconds.list document, classified the way both
parsers branch on it: empty after stripping, a `#@` expiry header, any
other comment, or a data row.  An `Option Int` field is `some v` when
`int(...)` on the corresponding whitespace-separated field succeeds
with value `v`, and `none` when it would raise (field malformed or
absent); rows are otherwise assumed to carry the documented number of
fields. -/
inductive Line
  | blank
  | expiresLine (v : Option Int)
  | comment
  | dataLine (a b : Option Int)
deriving DecidableEq

/-- How parsing a document can fail (a raised exception in Python). -/
inductive ParseErr
  | fileMissing
  | badNumber
  | indexError
deriving DecidableEq

/-- Line loop of `__ietf_parse_leapfile` (src/gpstime/__init__.py lines
105-117): lines are not stripped, so a blank line reaches the data
branch and `sl[0]` raises; a `#@` line re-binds `expire`; other
comments are skipped; a data row converts both leading fields with
`int` and appends `(unix, offset)` only when `unix > GPS0`. -/
def ietfGo : List Line → List LeapEntry → Int → Except ParseErr (List LeapEntry × Int)
  | [], data, expire => Except.ok (data, expire)
  | Line.blank :: _, _, _ => Except.error ParseErr.indexError
  | Line.expiresLine none :: _, _, _ => Except.error ParseErr.badNumber
  | Line.expiresLine (some v) :: rest, data, _ => ietfGo rest data (ntp2unix v)
  | Line.comment :: rest, data, expire => ietfGo rest data expire
  | Line.dataLine (some a) (some b) :: rest, data, expire =>
    if GPS0 < ntp2unix a then ietfGo rest (data ++ [(ntp2unix a, b)]) expire
    else ietfGo rest data expire
  | Line.dataLine _ _ :: _, _, _ => Except.error ParseErr.badNumber

/-- `__ietf_parse_leapfile` (src/gpstime/__init__.py lines 95-118): a
missing file returns `([], 0)` without error; otherwise the lines are
scanned with `data = []` and `expire = 0`. -/
def ietf_parse_leapfile (file : Option (List Line)) :
    Except ParseErr (List LeapEntry × Int) :=
  match file with
  | none => Except.ok ([], 0)
  | some lines => ietfGo lines [] 0

theorem ietfGo_pos : ∀ (lines : List Line) (acc : List LeapEntry) (e : Int)
    (data : List LeapEntry) (expire : Int),
    (∀ p ∈ acc, GPS0 < p.1) → ietfGo lines acc e = Except.ok (data, expire) →
    ∀ p ∈ data, GPS0 < p.1 := by
  intro lines
  induction lines with
  | nil =>
    intro acc e data expire hacc heq
    simp only [ietfGo, Except.ok.injEq, Prod.mk.injEq] at heq
    exact heq.1 ▸ hacc
  | cons l rest ih =>
    intro acc e data expire hacc heq
    cases l with
    | blank => simp [ietfGo] at heq
    | comment => exact ih acc e data expire hacc heq
    | expiresLine v =>
      cases v with
      | none => simp [ietfGo] at heq
      | some w => exact ih acc (ntp2unix w) data expire hacc heq
    | dataLine a b =>
      cases a with
      | none => simp [ietfGo] at heq
      | some av =>
        cases b with
        | none => simp [ietfGo] at heq
        | some bv =>
          by_cases hg : GPS0 < ntp2unix av
          · rw [ietfGo, if_pos hg] at heq
            refine ih (acc ++ [(ntp2unix av, bv)]) e data expire ?_ heq
            intro p hp
            rcases List.mem_append.mp hp with hmem | hmem
            · exact hacc p hmem
            · have : p = (ntp2unix av, bv) := by simpa using hmem
              rw [this]
              exact hg
          · rw [ietfGo, if_neg hg] at heq
            exact ih acc e data expire hacc heq

/-- C10: every table `__ietf_parse_leapfile` produces contains only
events with instant strictly above the GPS epoch; consequently
`unix2gps u = u - GPS0` exactly for `u ≤ GPS0`, and
`gps2unix g = g + GPS0` exactly for `g ≤ 0`: no leap adjustment touches
pre-GPS-epoch instants. -/
theorem parsed_table_post_epoch (file : Option (List Line))
    (data : List LeapEntry) (expire : Int)
    (heq : ietf_parse_leapfile file = Except.ok (data, expire)) :
    (∀ p ∈ data, GPS0 < p.1)
    ∧ (∀ u : Int, u ≤ GPS0 → unix2gps u data = u - GPS0)
    ∧ (∀ g : Int, g ≤ 0 → gps2unix g data = g + GPS0) := by
  have hpos : ∀ p ∈ data, GPS0 < p.1 := by
    cases file with
    | none =>
      simp only [ietf_parse_leapfile, Except.ok.injEq, Prod.mk.injEq] at heq
      rw [← heq.1]
      simp
    | some lines =>
      exact ietfGo_pos lines [] 0 data expire (by simp) heq
  refine ⟨hpos, fun u hu => ?_, fun g hg => ?_⟩
  · cases data with
    | nil => rfl
    | cons p rest =>
      have := hpos p (List.mem_cons_self _ _)
      obtain ⟨leap, o⟩ := p
      have hlt : u < leap := by
        simp only at this
        omega
      simp [unix2gps, u2gLoop, hlt]
  · cases data with
    | nil => rfl
    | cons p rest =>
      have := hpos p (List.mem_cons_self _ _)
      obtain ⟨leap, o⟩ := p
      have hlt : g + GPS0 < leap := by
        simp only at this
        omega
      simp [gps2unix, g2uLoop, hlt]

/-- Witness for C10: a small document (comment, expiry header, one
pre-epoch row that is filtered out, one post-epoch row). -/
theorem parsed_table_post_epoch_inst :
    (∀ p ∈ [((362793600 : Int), (20 : Int))], GPS0 < p.1)
    ∧ unix2gps 100 [((362793600 : Int), (20 : Int))] = 100 - GPS0
    ∧ gps2unix (-5) [((362793600 : Int), (20 : Int))] = -5 + GPS0 :=
  ⟨(parsed_table_post_epoch
      (some [Line.comment, Line.expiresLine (some 3676924800),
             Line.dataLine (some 2524521600) (some 19),
             Line.dataLine (some 2571782400) (some 20)])
      [(362793600, 20)] 1467936000 rfl).1,
   (parsed_table_post_epoch
      (some [Line.comment, Line.expiresLine (some 3676924800),
             Line.dataLine (some 2524521600) (some 19),
             Line.dataLine (some 2571782400) (some 20)])
      [(362793600, 20)] 1467936000 rfl).2.1 100 (by decide),
   (parsed_table_post_epoch
      (some [Line.comment, Line.expiresLine (some 3676924800),
             Line.dataLine (some 2524521600) (some 19),
             Line.dataLine (some 2571782400) (some 20)])
      [(362793600, 20)] 1467936000 rfl).2.2 (-5) (by decide)⟩

/-- Line loop of `load_IETF` (src/gpstime/leaps.py lines 52-74): lines
are stripped, blank lines and comments are skipped, a `#@` line
re-binds `expires`, and the FIRST data row is discarded without parsing
its fields (`if first: first = False; continue`); later data rows
convert their leading field with `int` and append the instant (the
offset field is never converted: `# FIXME: do something with offset`).
-/
def loadIETFgo : List Line → Bool → List Int → Int → Except ParseErr (List Int × Int)
  | [], _, data, expires => Except.ok (data, expires)
  | Line.blank :: rest, first, data, e => loadIETFgo rest first data e
  | Line.expiresLine none :: _, _, _, _ => Except.error ParseErr.badNumber
  | Line.expiresLine (some v) :: rest, first, data, _ =>
    loadIETFgo rest first data (ntp2unix v)
  | Line.comment :: rest, first, data, e => loadIETFgo rest first data e
  | Line.dataLine a _ :: rest, first, data, e =>
    if first then loadIETFgo rest false data e
    else
      match a with
      | some l => loadIETFgo rest false (data ++ [ntp2unix l]) e
      | none => Except.error ParseErr.badNumber

/-- `load_IETF` (src/gpstime/leaps.py lines 52-74): `open` on a missing
file raises (modelled `fileMissing`); otherwise the lines are scanned
with `data = []`, `expires = 0`, `first = True`. -/
def load_IETF (file : Option (List Line)) : Except ParseErr (List Int × Int) :=
  match file with
  | none => Except.error ParseErr.fileMissing
  | some lines => loadIETFgo lines true [] 0

/-- A line none of whose used numeric fields fails to convert. -/
def lineGood : Line → Bool
  | Line.blank => true
  | Line.comment => true
  | Line.expiresLine v => v.isSome
  | Line.dataLine a _ => a.isSome

/-- Whether a line is a `#@` expiry header. -/
def isExpiresLine : Line → Bool
  | Line.expiresLine _ => true
  | _ => false

/-- Whether a line is a data row. -/
def isDataLine : Line → Bool
  | Line.dataLine _ _ => true
  | _ => false

theorem loadIETFgo_ok : ∀ (lines : List Line) (first : Bool) (data : List Int) (e : Int),
    (∀ l ∈ lines, lineGood l = true) →
    ∃ r, loadIETFgo lines first data e = Except.ok r := by
  intro lines
  induction lines with
  | nil => intro first data e _; exact ⟨(data, e), rfl⟩
  | cons l rest ih =>
    intro first data e hall
    have hl := hall l (List.mem_cons_self _ _)
    have hrest : ∀ x ∈ rest, lineGood x = true := fun x hx =>
      hall x (List.mem_cons_of_mem _ hx)
    cases l with
    | blank => exact ih first data e hrest
    | comment => exact ih first data e hrest
    | expiresLine v =>
      cases v with
      | none => simp [lineGood] at hl
      | some w => exact ih first data (ntp2unix w) hrest
    | dataLine a b =>
      cases first with
      | true => exact ih false data e hrest
      | false =>
        cases a with
        | none => simp [lineGood] at hl
        | some av => exact ih false (data ++ [ntp2unix av]) e hrest

theorem loadIETFgo_noExpiry :
    ∀ (lines : List Line) (first : Bool) (data : List Int) (e : Int),
    (∀ l ∈ lines, lineGood l = true ∧ isExpiresLine l = false) →
    ∃ d, loadIETFgo lines first data e = Except.ok (d, e) := by
  intro lines
  induction lines with
  | nil => intro first data e _; exact ⟨data, rfl⟩
  | cons l rest ih =>
    intro first data e hall
    have hl := hall l (List.mem_cons_self _ _)
    have hrest : ∀ x ∈ rest, lineGood x = true ∧ isExpiresLine x = false := fun x hx =>
      hall x (List.mem_cons_of_mem _ hx)
    cases l with
    | blank => exact ih first data e hrest
    | comment => exact ih first data e hrest
    | expiresLine v => simp [isExpiresLine] at hl
    | dataLine a b =>
      cases first with
      | true => exact ih false data e hrest
      | false =>
        cases a with
        | none => simp [lineGood] at hl
        | some av => exact ih false (data ++ [ntp2unix av]) e hrest

/-- The `#@` expiry header's numeric field failing to convert is an
error wherever the header sits in the document (every other line either
continues the scan or itself raises the same error). -/
theorem loadIETFgo_expires_bad :
    ∀ (pre rest : List Line) (first : Bool) (data : List Int) (e : Int),
      loadIETFgo (pre ++ Line.expiresLine none :: rest) first data e
        = Except.error ParseErr.badNumber := by
  intro pre
  induction pre with
  | nil => intro rest first data e; rfl
  | cons l pre' ih =>
    intro rest first data e
    cases l with
    | blank => exact ih rest first data e
    | comment => exact ih rest first data e
    | expiresLine v =>
      cases v with
      | none => rfl
      | some w => exact ih rest first data (ntp2unix w)
    | dataLine a b =>
      cases first with
      | true => exact ih rest false data e
      | false =>
        cases a with
        | none => rfl
        | some av => exact ih rest false (data ++ [ntp2unix av]) e

/-- A data row whose timestamp fails to convert is an error wherever it
sits, provided it is not the discarded first data row: here, provided
the `first` flag is already cleared or some data row precedes it. -/
theorem loadIETFgo_data_bad :
    ∀ (pre : List Line) (b : Option Int) (rest : List Line) (first : Bool)
      (data : List Int) (e : Int),
      (first = false ∨ ∃ l ∈ pre, isDataLine l = true) →
      loadIETFgo (pre ++ Line.dataLine none b :: rest) first data e
        = Except.error ParseErr.badNumber := by
  intro pre
  induction pre with
  | nil =>
    intro b rest first data e h
    rcases h with hf | ⟨x, hx, _⟩
    · subst hf; rfl
    · exact absurd hx (List.not_mem_nil x)
  | cons l pre' ih =>
    intro b rest first data e h
    have hdown : isDataLine l = false → first = false ∨ ∃ x ∈ pre', isDataLine x = true := by
      intro hnd
      rcases h with hf | ⟨x, hx, hdx⟩
      · exact Or.inl hf
      · rcases List.mem_cons.mp hx with hhead | htail
        · rw [hhead] at hdx
          rw [hnd] at hdx
          exact absurd hdx (by simp)
        · exact Or.inr ⟨x, htail, hdx⟩
    cases l with
    | blank => exact ih b rest first data e (hdown rfl)
    | comment => exact ih b rest first data e (hdown rfl)
    | expiresLine v =>
      cases v with
      | none => rfl
      | some w => exact ih b rest first data (ntp2unix w) (hdown rfl)
    | dataLine a b' =>
      cases first with
      | true => exact ih b rest false data e (Or.inl rfl)
      | false =>
        cases a with
        | none => rfl
        | some av => exact ih b rest false (data ++ [ntp2unix av]) e (Or.inl rfl)

/-- The error `LeapData._load` raises in place of whatever the loader
raised. -/
inductive RunErr
  | runtimeError
deriving DecidableEq

/-- `LeapData._load` (src/gpstime/leaps.py lines 117-121): runs the
given loader on the path and stores its result; ANY exception from the
loader is caught and re-raised as a RuntimeError. -/
def LeapData_load (res : Except ParseErr (List Int × Int)) :
    Except RunErr (List Int × Int) :=
  match res with
  | Except.ok r => Except.ok r
  | Except.error _ => Except.error RunErr.runtimeError

/-- The `(self.data, self.expires)` state of a `LeapData` object;
`none` models Python's initial `self.data = None`. -/
abbrev LDState := Option (List Int) × Int

/-- `not self.data or self.expired`: data still `None` or empty, or
`self.expires <= time.time()`. -/
def needsMore (st : LDState) (now : Int) : Bool :=
  (match st.1 with
   | none => true
   | some d => d.isEmpty) || decide (st.2 ≤ now)

/-- One candidate load of `LeapData.__init__`: `cand = none` models a
path that fails the `os.path.exists` test and is skipped; `cand = some
res` an existing file whose loader produced `res`.  A RuntimeError from
`_load` propagates — `__init__` wraps none of its `_load` calls in
try/except. -/
def loadStepLD (st : LDState) (cand : Option (Except ParseErr (List Int × Int))) :
    Except RunErr LDState :=
  match cand with
  | none => Except.ok st
  | some res =>
    match LeapData_load res with
    | Except.ok (d, e) => Except.ok (some d, e)
    | Except.error err => Except.error err

/-- A candidate load guarded by `not self.data or self.expired`, as for
the second and third candidates of `LeapData.__init__`. -/
def initStep (st : LDState) (now : Int)
    (cand : Option (Except ParseErr (List Int × Int))) : Except RunErr LDState :=
  if needsMore st now then loadStepLD st cand else Except.ok st

/-- `LeapData.__init__` (src/gpstime/leaps.py lines 102-115):
`self.data = None; self.expires = 0`; the NIST candidate is guarded
only by file existence, the system-IETF and user candidates also by
`not self.data or self.expired`.  Each candidate is the outcome of its
loader on that path when the path exists. -/
def LeapData_init (nist ietf user : Option (Except ParseErr (List Int × Int)))
    (now : Int) : Except RunErr LDState :=
  match loadStepLD (none, 0) nist with
  | Except.error err => Except.error err
  | Except.ok st₁ =>
    match initStep st₁ now ietf with
    | Except.error err => Except.error err
    | Except.ok st₂ => initStep st₂ now user

/-- Counterexample to C7 as stated: a document with no expiry header at
all parses SUCCESSFULLY (to a table with expiry 0), instead of failing
with a ParseError as the claim requires for a missing required expiry
header. -/
theorem load_IETF_ok_without_expiry :
    load_IETF (some [Line.comment, Line.dataLine (some 2272060800) (some 10),
                     Line.dataLine (some 2303683200) (some 11)])
      = Except.ok ([94694400], 0) := rfl

/-- C7 (amended): `load_IETF` fails exactly when the file does not
exist (`open` raises) or a used numeric field fails to convert — the
value of a `#@` expiry header, or the timestamp of a data row after the
first (which is discarded unexamined) — at whatever position in the
document the offending line sits; a document whose used numeric fields
all convert parses successfully, and when it has no expiry header at
all the result simply carries expiry 0 — an always-expired table, not
an error.  The failure is re-raised by `LeapData._load` as a
RuntimeError, and `LeapData.__init__` does not catch it: a candidate
whose file exists but whose parse fails aborts resolution, whatever the
later candidates hold, rather than being skipped. -/
theorem load_IETF_error_conditions :
    load_IETF none = Except.error ParseErr.fileMissing
    ∧ (∀ lines : List Line, (∀ l ∈ lines, lineGood l = true) →
        ∃ r, load_IETF (some lines) = Except.ok r)
    ∧ (∀ lines : List Line,
        (∀ l ∈ lines, lineGood l = true ∧ isExpiresLine l = false) →
        ∃ d, load_IETF (some lines) = Except.ok (d, 0))
    ∧ (∀ pre rest : List Line,
        load_IETF (some (pre ++ Line.expiresLine none :: rest))
          = Except.error ParseErr.badNumber)
    ∧ (∀ (pre : List Line) (b : Option Int) (rest : List Line),
        (∃ l ∈ pre, isDataLine l = true) →
        load_IETF (some (pre ++ Line.dataLine none b :: rest))
          = Except.error ParseErr.badNumber)
    ∧ (∀ (err : ParseErr) (ietf user : Option (Except ParseErr (List Int × Int)))
        (now : Int),
        LeapData_init (some (Except.error err)) ietf user now
          = Except.error RunErr.runtimeError)
    ∧ (∀ (err : ParseErr) (user : Option (Except ParseErr (List Int × Int)))
        (now : Int),
        LeapData_init none (some (Except.error err)) user now
          = Except.error RunErr.runtimeError) := by
  refine ⟨rfl, fun lines h => loadIETFgo_ok lines true [] 0 h,
    fun lines h => loadIETFgo_noExpiry lines true [] 0 h,
    fun pre rest => loadIETFgo_expires_bad pre rest true [] 0,
    fun pre b rest h => loadIETFgo_data_bad pre b rest true [] 0 (Or.inr h),
    fun err ietf user now => rfl,
    fun err user now => rfl⟩

/-- Witness for C7 (amended): a well-formed document parses, one with
no expiry header parses with expiry 0, and a bad timestamp on a data
row after the first errors wherever it sits. -/
theorem load_IETF_error_conditions_inst :
    (∃ r, load_IETF (some [Line.comment, Line.expiresLine (some 3676924800),
                           Line.dataLine (some 2272060800) (some 10),
                           Line.dataLine (some 2571782400) (some 20)])
        = Except.ok r)
    ∧ (∃ d, load_IETF (some [Line.comment, Line.dataLine (some 2272060800) (some 10),
                             Line.dataLine (some 2571782400) (some 20)])
        = Except.ok (d, 0))
    ∧ load_IETF (some ([Line.comment, Line.dataLine (some 2272060800) (some 10)]
          ++ Line.dataLine none (some 11) :: [Line.comment]))
        = Except.error ParseErr.badNumber :=
  ⟨load_IETF_error_conditions.2.1
     [Line.comment, Line.expiresLine (some 3676924800),
      Line.dataLine (some 2272060800) (some 10),
      Line.dataLine (some 2571782400) (some 20)] (by decide),
   load_IETF_error_conditions.2.2.1
     [Line.comment, Line.dataLine (some 2272060800) (some 10),
      Line.dataLine (some 2571782400) (some 20)] (by decide),
   load_IETF_error_conditions.2.2.2.2.1
     [Line.comment, Line.dataLine (some 2272060800) (some 10)]
     (some 11) [Line.comment] (by decide)⟩

end Gpstime
